import Mathlib

/-!
Shallow embedding of `bookast` (`main.go`), a podcast RSS feed generator for
a directory of audio files, together with proofs checking the natural-language
specification against the code.

Modelling conventions:
* Go strings are byte strings; Lean `String`s are code-point sequences.  Byte
  level operations (percent-encoding) therefore go through an explicit UTF-8
  encoding `strBytes`.  Filenames that are not valid UTF-8 are outside the
  model.
* Times (`time.Time`, captured `now` values) are `Int` nanoseconds; durations
  (`time.Duration`) are `Nat` nanoseconds (the duration probe yields a
  non-negative value).
* The external collaborators (the filesystem, the embedded tag reader, the
  ffprobe duration probe, `encoding/xml` marshalling and `time.Format`) are
  oracles passed in as function-valued parameters, as the spec directs
  ("consumed as a black box").
-/

namespace Bookast

/-- Concatenation of the images of `f`, spelled out so that its equations are
definitional. -/
def concatMap {α β : Type} (f : α → List β) : List α → List β
  | [] => []
  | a :: l => f a ++ concatMap f l

/-- UTF-8 encoding of one code point as a list of byte values. -/
def utf8Bytes (n : Nat) : List Nat :=
  if n < 0x80 then [n]
  else if n < 0x800 then [0xC0 + n / 0x40, 0x80 + n % 0x40]
  else if n < 0x10000 then [0xE0 + n / 0x1000, 0x80 + n / 0x40 % 0x40, 0x80 + n % 0x40]
  else [0xF0 + n / 0x40000, 0x80 + n / 0x1000 % 0x40, 0x80 + n / 0x40 % 0x40, 0x80 + n % 0x40]

/-- The UTF-8 bytes of a string (a Go string is exactly this byte sequence). -/
def strBytes (s : String) : List Nat := concatMap (fun c => utf8Bytes c.toNat) s.data

/-- Whether a byte must be percent-escaped in a URL path segment; transcribes
Go `net/url.shouldEscape(c, encodePathSegment)`: unescaped are alphanumerics,
the unreserved marks `-._~`, and the reserved characters `$&+:=@` (while
`/;,?` and everything else is escaped). -/
def shouldEscape (b : Nat) : Bool :=
  if (97 ≤ b && b ≤ 122) || (65 ≤ b && b ≤ 90) || (48 ≤ b && b ≤ 57) then false
  else if b = 45 || b = 95 || b = 46 || b = 126 then false
  else if b = 36 || b = 38 || b = 43 || b = 58 || b = 61 || b = 64 then false
  else true

/-- Upper-case hex digit of `n < 16`, as a byte (Go `upperhex` table). -/
def hexUpper (n : Nat) : Nat := if n < 10 then 48 + n else 55 + n

/-- Escaping of a single byte, per Go `net/url.escape` in path-segment mode:
either the byte itself or a `%XX` triple with upper-case hex. -/
def escapeByte (b : Nat) : List Nat :=
  if shouldEscape b then [37, hexUpper (b / 16), hexUpper (b % 16)] else [b]

/-- Models Go `net/url.PathEscape`: percent-escapes each byte of the string's
UTF-8 encoding as needed in a path segment.  All output bytes are ASCII. -/
def pathEscape (s : String) : String :=
  String.mk ((concatMap escapeByte (strBytes s)).map Char.ofNat)

/-- Hex digit value accepted by Go `net/url.ishex`/`unhex` (`0-9`, `a-f`,
`A-F`), given a byte. -/
def unhex (b : Nat) : Option Nat :=
  if 48 ≤ b ∧ b ≤ 57 then some (b - 48)
  else if 97 ≤ b ∧ b ≤ 102 then some (b - 87)
  else if 65 ≤ b ∧ b ≤ 70 then some (b - 55)
  else none

/-- Models Go `net/url.unescape` in path-segment mode on the byte string:
each `%XX` with two hex digits becomes the byte `XX` (malformed escapes are
an error) and every other byte is copied verbatim. -/
def unescapeBytes : List Nat → Option (List Nat)
  | [] => some []
  | b :: rest =>
    if b = 37 then
      match rest with
      | b1 :: b2 :: rest2 =>
        match unhex b1, unhex b2 with
        | some h1, some h2 => (unescapeBytes rest2).map (fun l => (h1 * 16 + h2) :: l)
        | _, _ => none
      | _ => none
    else (unescapeBytes rest).map (fun l => b :: l)

/-- Models Go `net/url.PathUnescape`.  A Go string is a byte string, so the
decoded result is its list of bytes; `strBytes` mediates between the two
string notions (see `strBytes_inj`: the byte string determines the Lean
string uniquely). -/
def pathUnescape (s : String) : Option (List Nat) :=
  unescapeBytes (strBytes s)

/-- Models Go `strings.TrimSuffix`: drops `suffix` once from the end of `s`
when present. -/
def trimSuffix (s suffix : String) : String :=
  if suffix.data.isSuffixOf s.data then String.mk (s.data.take (s.data.length - suffix.data.length))
  else s

/-- Models Go `strings.ToLower` on the strings the program lower-cases
(extensions about to be compared with ASCII extension sets; `Char.toLower`
is the ASCII case map, and no non-ASCII character lower-cases to a character
of the extension sets, so classification is unaffected). -/
def toLowerStr (s : String) : String := String.mk (s.data.map Char.toLower)

/-- Drops every trailing `/` (the separator-stripping loop of
`path/filepath.Base`). -/
def dropTrailingSlashes (s : String) : String :=
  String.mk (s.data.reverse.dropWhile (fun c => c = '/')).reverse

/-- The part of `s` after the last `/` (all of `s` if it has none). -/
def afterLastSlash (s : String) : String :=
  String.mk (s.data.reverse.takeWhile (fun c => c ≠ '/')).reverse

/-- Models Go `path/filepath.Base` (on a Unix path): the last element of the
path after dropping trailing separators, `"."` for the empty path and `"/"`
for a path of only separators. -/
def filepathBase (path : String) : String :=
  if path = "" then "."
  else
    let p := dropTrailingSlashes path
    let b := afterLastSlash p
    if b = "" then "/" else b

/-- Models Go `path/filepath.Ext`: the suffix of the last path element
starting at its final dot, empty when that element has no dot. -/
def extFromRev : List Char → List Char → String
  | [], _ => ""
  | c :: rest, acc =>
    if c = '/' then ""
    else if c = '.' then String.mk ('.' :: acc)
    else extFromRev rest (c :: acc)

/-- See `extFromRev`; scans the path from its end. -/
def filepathExt (p : String) : String := extFromRev p.data.reverse []

/-- Models Go `path/filepath.Join(dir, name)` for the shapes the program
uses: a directory path joined with one directory-entry name (entry names
contain no separator, so `Clean` reduces to plain concatenation). -/
def filepathJoin (dir name : String) : String := dir ++ "/" ++ name

/-- Tag metadata as returned by the embedded tag reader (`tag.ReadFrom`),
consumed as a black box; only the title and comment fields are used. -/
structure Tag where
  title : String
  comment : String
deriving Repr, DecidableEq

/-- The external collaborators of `processAudioFile`, keyed by file path:
`os.Open`, `(*os.File).Stat` (only the size is used), `tag.ReadFrom`, and
`getDurationWithFFmpeg` (the ffprobe invocation plus float parsing, returning
a duration in nanoseconds).  Each can fail with an error message. -/
structure FS where
  openFile : String → Except String Unit
  statSize : String → Except String Int
  readTag : String → Except String Tag
  probeDuration : String → Except String Nat

/-- The `Episode` struct of `main.go`. -/
structure Episode where
  Title : String
  Description : String
  FilePath : String
  Duration : Nat
  FileSize : Int
  PubDate : Int
  URL : String
  EpisodeNum : Nat
deriving Repr, DecidableEq

/-- The `Podcast` struct of `main.go`. -/
structure Podcast where
  Title : String
  Description : String
  Episodes : List Episode
  CoverArtURL : String
deriving Repr, DecidableEq

/-- The `Enclosure` XML struct; `Type'` embeds the Go field `Type` (a Lean
keyword). -/
structure Enclosure where
  URL : String
  Length : Int
  Type' : String
deriving Repr, DecidableEq

/-- The `Item` XML struct.  `ItunesDuration` carries `omitempty`: the Go
field is a string and the element is omitted exactly when it is empty, which
is embedded as an `Option` (`none` = omitted). -/
structure Item where
  Title : String
  Description : String
  PubDate : String
  ItunesEpisode : Nat
  ItunesDuration : Option String
  Enclosure : Enclosure
  GUID : String
deriving Repr, DecidableEq

/-- The `Channel` XML struct; `ItunesImage` carries `omitempty` on a pointer
field, embedded as an `Option` of the image href. -/
structure Channel where
  Title : String
  Description : String
  Language : String
  ItunesType : String
  ItunesImage : Option String
  LastBuildDate : String
  Items : List Item
deriving Repr, DecidableEq

/-- The `RSS` XML root struct. -/
structure RSS where
  Version : String
  ITunesNS : String
  Channel : Channel
deriving Repr, DecidableEq

/-- One entry of `os.ReadDir`: a name and whether it is a directory. -/
structure DirEntry where
  name : String
  isDir : Bool
deriving Repr, DecidableEq

/-- The `supportedAudioExts` set of `scanDirectory`, as a membership test. -/
def supportedAudioExts (ext : String) : Bool :=
  ext = ".mp3" || ext = ".m4a" || ext = ".m4b" || ext = ".aac" || ext = ".flac" || ext = ".ogg"

/-- The `supportedImageExts` set of `scanDirectory`, as a membership test. -/
def supportedImageExts (ext : String) : Bool :=
  ext = ".jpg" || ext = ".jpeg" || ext = ".png"

/-- The `getMimeType` function of `main.go`. -/
def getMimeType (filePath : String) : String :=
  let ext := toLowerStr (filepathExt filePath)
  if ext = ".mp3" then "audio/mpeg"
  else if ext = ".m4a" || ext = ".m4b" then "audio/mp4"
  else if ext = ".aac" then "audio/aac"
  else if ext = ".flac" then "audio/flac"
  else if ext = ".ogg" then "audio/ogg"
  else "audio/mpeg"

/-- Two-digit zero-padded decimal, modelling the Go `%02d` verb for the
minute and second fields (which are always below 60). -/
def pad2 (n : Nat) : String := if n < 10 then "0" ++ Nat.repr n else Nat.repr n

/-- The `formatDuration` function of `main.go` on a duration in nanoseconds.
Go extracts the fields by float64 truncation (`int(d.Hours())`,
`int(d.Minutes()) % 60`, `int(d.Seconds()) % 60`), which agrees with the
integer division used here on every duration whose hour count is exact in
float64 arithmetic (all realistic durations; the two representations first
part company beyond two million hours). -/
def formatDuration (d : Nat) : String :=
  let hours := d / 3600000000000
  let minutes := d / 60000000000 % 60
  let seconds := d / 1000000000 % 60
  if hours > 0 then Nat.repr hours ++ ":" ++ pad2 minutes ++ ":" ++ pad2 seconds
  else Nat.repr minutes ++ ":" ++ pad2 seconds

/-- The `processAudioFile` function of `main.go`; the four external calls
(`os.Open`, `Stat`, `tag.ReadFrom`, `getDurationWithFFmpeg`) are taken from
the `FS` oracle, and each error aborts exactly as in the Go code. -/
def processAudioFile (fs : FS) (filePath baseURL baseDir : String)
    (pubDate : Int) (episodeNum : Nat) : Except String Episode :=
  match fs.openFile filePath with
  | .error e => .error e
  | .ok _ =>
    match fs.statSize filePath with
    | .error e => .error e
    | .ok size =>
      match fs.readTag filePath with
      | .error e => .error e
      | .ok metadata =>
        let filename := filepathBase filePath
        let dirName := filepathBase baseDir
        let escapedDir := pathEscape dirName
        let escapedFile := pathEscape filename
        let fileURL := trimSuffix baseURL "/" ++ "/" ++ escapedDir ++ "/" ++ escapedFile
        let title :=
          if metadata.title = "" then trimSuffix filename (filepathExt filename)
          else metadata.title
        let description :=
          if metadata.comment ≠ "" ∧ metadata.comment ≠ "iTunPGAP" then metadata.comment
          else title
        match fs.probeDuration filePath with
        | .error e => .error ("failed to get duration: " ++ e)
        | .ok duration =>
          .ok { Title := title, Description := description, FilePath := filePath,
                Duration := duration, FileSize := size, PubDate := pubDate,
                URL := fileURL, EpisodeNum := episodeNum }

/-- One step of the entry-classification loop of `scanDirectory`: the state
is the audio-file list and the cover-art filename (`""` while unset). -/
def scanStep (st : List String × String) (e : DirEntry) : List String × String :=
  if e.isDir then st
  else
    let ext := toLowerStr (filepathExt e.name)
    if supportedAudioExts ext then (st.1 ++ [e.name], st.2)
    else if supportedImageExts ext && st.2 = "" then (st.1, e.name)
    else st

/-- Lexicographic comparison of code-point sequences: `charListLe a b` is
true when `a` is at most `b` in dictionary order (on UTF-8 strings, byte
order and code-point order coincide, so this is also Go's byte order). -/
def charListLe : List Char → List Char → Bool
  | [], _ => true
  | _ :: _, [] => false
  | c1 :: t1, c2 :: t2 =>
    if c1 < c2 then true
    else if c2 < c1 then false
    else charListLe t1 t2

/-- Lexicographic string comparison, the order `sort.Strings` sorts by. -/
def strLe (a b : String) : Bool := charListLe a.data b.data

/-- Models `sort.Strings` (ascending lexicographic order on strings); since
the order is total and antisymmetric, the sorted permutation is unique, so
any correct sort computes this list. -/
def sortStrings (l : List String) : List String :=
  List.insertionSort (fun a b => strLe a b = true) l

/-- The episode-building loop of `scanDirectory`: the `i`-th sorted file (the
counter starts at `i0`) is processed with publication time `now + i` seconds
and episode number `i + 1`; the first failure aborts with the wrapped
`failed to process` error. -/
def buildEpisodes (fs : FS) (dir baseURL : String) (now : Int) :
    Nat → List String → Except String (List Episode)
  | _, [] => .ok []
  | i, filename :: rest =>
    match processAudioFile fs (filepathJoin dir filename) baseURL dir
        (now + (i : Int) * 1000000000) (i + 1) with
    | .error e => .error ("failed to process " ++ filename ++ ": " ++ e)
    | .ok episode =>
      match buildEpisodes fs dir baseURL now (i + 1) rest with
      | .error e => .error e
      | .ok eps => .ok (episode :: eps)

/-- The `scanDirectory` function of `main.go`.  `readDir` is the result of
`os.ReadDir`; `now` is the single `time.Now()` value captured once per run
before the episode loop. -/
def scanDirectory (fs : FS) (readDir : Except String (List DirEntry))
    (dir baseURL : String) (now : Int) : Except String Podcast :=
  match readDir with
  | .error e => .error e
  | .ok entries =>
    let st := entries.foldl scanStep ([], "")
    let audioFiles := sortStrings st.1
    let coverArtFile := st.2
    match buildEpisodes fs dir baseURL now 0 audioFiles with
    | .error e => .error e
    | .ok episodes =>
      .ok { Title := filepathBase dir,
            Description := "Audiobook podcast for " ++ filepathBase dir,
            Episodes := episodes,
            CoverArtURL :=
              if coverArtFile ≠ "" then
                trimSuffix baseURL "/" ++ "/" ++ pathEscape (filepathBase dir) ++ "/" ++
                  pathEscape coverArtFile
              else "" }

/-- One `Item` of `generateRSS`, built from an episode.  `fmtTime` models the
external `time.Time.Format(time.RFC1123Z)` collaborator applied to a
nanosecond timestamp. -/
def mkItem (fmtTime : Int → String) (ep : Episode) : Item :=
  { Title := ep.Title,
    Description := ep.Description,
    PubDate := fmtTime ep.PubDate,
    ItunesEpisode := ep.EpisodeNum,
    ItunesDuration := if ep.Duration > 0 then some (formatDuration ep.Duration) else none,
    Enclosure := { URL := ep.URL, Length := ep.FileSize, Type' := getMimeType ep.FilePath },
    GUID := ep.URL }

/-- The channel built by `generateRSS`; `renderNow` is the `time.Now()` read
at render time for `lastBuildDate`. -/
def buildChannel (fmtTime : Int → String) (podcast : Podcast) (renderNow : Int) : Channel :=
  { Title := podcast.Title,
    Description := podcast.Description,
    Language := "en-us",
    ItunesType := "serial",
    ItunesImage := if podcast.CoverArtURL ≠ "" then some podcast.CoverArtURL else none,
    LastBuildDate := fmtTime renderNow,
    Items := podcast.Episodes.map (mkItem fmtTime) }

/-- The RSS document built by `generateRSS` before marshalling. -/
def buildRSS (fmtTime : Int → String) (podcast : Podcast) (renderNow : Int) : RSS :=
  { Version := "2.0",
    ITunesNS := "http://www.itunes.com/dtds/podcast-1.0.dtd",
    Channel := buildChannel fmtTime podcast renderNow }

/-- The value of `xml.Header`. -/
def xmlHeader : String := "<?xml version=\"1.0\" encoding=\"UTF-8\"?>\n"

/-- The `generateRSS` function of `main.go`: builds the document and marshals
it via the external `xml.MarshalIndent` collaborator (`marshal`); on a
marshalling error it returns the empty string, otherwise the XML header plus
the marshalled output plus a newline. -/
def generateRSS (marshal : RSS → Except String String) (fmtTime : Int → String)
    (podcast : Podcast) (renderNow : Int) : String :=
  match marshal (buildRSS fmtTime podcast renderNow) with
  | .error _ => ""
  | .ok output => xmlHeader ++ output ++ "\n"

/-- Everything `main` consumes: the parsed flag and positional arguments, the
`os.Stat` existence check on the directory, the `os.ReadDir` result, the
per-file oracles, the two external collaborators of `generateRSS`, the two
clock reads, and whether `os.WriteFile` succeeds. -/
structure MainInput where
  baseURL : String
  args : List String
  dirExists : Bool
  readDir : Except String (List DirEntry)
  fs : FS
  marshal : RSS → Except String String
  fmtTime : Int → String
  scanNow : Int
  renderNow : Int
  writeOk : Bool

/-- The observable outcome of a run: the process exit code and the RSS file
written, as a `(path, content)` pair (`none` when nothing is written). -/
structure RunResult where
  exitCode : Nat
  written : Option (String × String)
deriving Repr, DecidableEq

/-- The `main` function of `main.go`, from flag validation to the final
write of `<directory>/podcast.rss`. -/
def mainRun (inp : MainInput) : RunResult :=
  if inp.baseURL = "" then { exitCode := 1, written := none }
  else if inp.args.length ≠ 1 then { exitCode := 1, written := none }
  else
    let directory := inp.args.headD ""
    if !inp.dirExists then { exitCode := 1, written := none }
    else
      match scanDirectory inp.fs inp.readDir directory inp.baseURL inp.scanNow with
      | .error _ => { exitCode := 1, written := none }
      | .ok podcast =>
        if podcast.Episodes.length = 0 then { exitCode := 1, written := none }
        else
          let rssContent := generateRSS inp.marshal inp.fmtTime podcast inp.renderNow
          let rssFile := filepathJoin directory "podcast.rss"
          if inp.writeOk then { exitCode := 0, written := some (rssFile, rssContent) }
          else { exitCode := 1, written := none }

/-- The audio filenames a directory listing contributes, in listing order:
non-directory entries whose lower-cased extension is a supported audio
extension. -/
def audioNames (entries : List DirEntry) : List String :=
  (entries.filter (fun e => !e.isDir && supportedAudioExts (toLowerStr (filepathExt e.name)))).map
    DirEntry.name

/-- Whether all four per-file external calls succeed for a path, i.e.
whether `processAudioFile` succeeds for it. -/
def procOk (fs : FS) (filePath : String) : Bool :=
  (fs.openFile filePath).toBool && (fs.statSize filePath).toBool &&
    (fs.readTag filePath).toBool && (fs.probeDuration filePath).toBool

/-- Demo tag used by the witnesses. -/
def demoTag : Tag := { title := "T", comment := "c" }

/-- Demo oracle for the witnesses: every file opens, stats at 7 bytes,
carries `demoTag` and probes at 2 seconds. -/
def demoFS : FS :=
  { openFile := fun _ => .ok (),
    statSize := fun _ => .ok 7,
    readTag := fun _ => .ok demoTag,
    probeDuration := fun _ => .ok 2000000000 }

/-- Demo directory listing: two audio files out of lexicographic order and a
cover image. -/
def demoEntries : List DirEntry :=
  [{ name := "b.mp3", isDir := false },
   { name := "a.mp3", isDir := false },
   { name := "cover.jpg", isDir := false }]

/-- Fallback values for extracting demo results. -/
def fallbackPodcast : Podcast := { Title := "", Description := "", Episodes := [], CoverArtURL := "" }

/-- Fallback episode for extracting demo results. -/
def fallbackEp : Episode :=
  { Title := "", Description := "", FilePath := "", Duration := 0, FileSize := 0,
    PubDate := 0, URL := "", EpisodeNum := 0 }

/-- The podcast the demo scan produces (the scan succeeds, see the
witnesses). -/
def demoPodcast : Podcast :=
  (scanDirectory demoFS (.ok demoEntries) "bk" "u/" 5).toOption.getD fallbackPodcast

/-- The episode the demo oracle produces for one file. -/
def demoEp : Episode :=
  (processAudioFile demoFS "bk/a.mp3" "u/" "bk" 5 1).toOption.getD fallbackEp

/-- Demo stand-in for the RFC-1123 time formatting collaborator. -/
def demoFmt : Int → String := fun t => Nat.repr t.toNat

/-- Oracle in which one file's duration probe fails. -/
def failFS : FS :=
  { openFile := fun _ => .ok (),
    statSize := fun _ => .ok 7,
    readTag := fun _ => .ok demoTag,
    probeDuration := fun p => if p = "bk/b.mp3" then .error "boom" else .ok 1000000000 }

/-- Run input whose scan hits the failing file. -/
def failInput : MainInput :=
  { baseURL := "u/", args := ["bk"], dirExists := true, readDir := .ok demoEntries,
    fs := failFS, marshal := fun _ => .ok "X", fmtTime := demoFmt,
    scanNow := 5, renderNow := 9, writeOk := true }

/-- Oracle whose tags are entirely empty, for the dotfile counterexample. -/
def emptyTagFS : FS :=
  { openFile := fun _ => .ok (),
    statSize := fun _ => .ok 7,
    readTag := fun _ => .ok { title := "", comment := "" },
    probeDuration := fun _ => .ok 1000000000 }

/-- Run input whose XML marshaller faults while everything else succeeds. -/
def marshalFailInput : MainInput :=
  { baseURL := "u/", args := ["bk"], dirExists := true, readDir := .ok demoEntries,
    fs := demoFS, marshal := fun _ => .error "marshal fault", fmtTime := demoFmt,
    scanNow := 5, renderNow := 9, writeOk := true }

/-- Full description of a successful `processAudioFile` call: every field of
the produced episode in terms of the oracle answers and the inputs. -/
theorem processAudioFile_ok_spec {fs : FS} {filePath baseURL baseDir : String}
    {pubDate : Int} {episodeNum : Nat} {tagv : Tag} {ep : Episode}
    (htag : fs.readTag filePath = .ok tagv)
    (h : processAudioFile fs filePath baseURL baseDir pubDate episodeNum = .ok ep) :
    ep.Title = (if tagv.title = "" then
        trimSuffix (filepathBase filePath) (filepathExt (filepathBase filePath))
      else tagv.title) ∧
    ep.Description = (if tagv.comment ≠ "" ∧ tagv.comment ≠ "iTunPGAP" then tagv.comment
      else ep.Title) ∧
    ep.FilePath = filePath ∧ ep.PubDate = pubDate ∧ ep.EpisodeNum = episodeNum ∧
    ep.URL = trimSuffix baseURL "/" ++ "/" ++ pathEscape (filepathBase baseDir) ++ "/" ++
      pathEscape (filepathBase filePath) ∧
    (∃ d, fs.probeDuration filePath = .ok d ∧ ep.Duration = d) ∧
    (∃ sz, fs.statSize filePath = .ok sz ∧ ep.FileSize = sz) := by
  unfold processAudioFile at h
  cases ho : fs.openFile filePath with
  | error e => rw [ho] at h; exact absurd h (by simp)
  | ok u =>
    rw [ho] at h
    cases hs : fs.statSize filePath with
    | error e => rw [hs] at h; exact absurd h (by simp)
    | ok size =>
      rw [hs, htag] at h
      cases hd : fs.probeDuration filePath with
      | error e => rw [hd] at h; exact absurd h (by simp)
      | ok dur =>
        rw [hd] at h
        injection h with h
        subst h
        exact ⟨rfl, rfl, rfl, rfl, rfl, rfl, ⟨dur, rfl, rfl⟩, ⟨size, rfl, rfl⟩⟩

/-- The fields of a successful `processAudioFile` call that do not depend on
the tag contents. -/
theorem processAudioFile_fields {fs : FS} {filePath baseURL baseDir : String}
    {pubDate : Int} {episodeNum : Nat} {ep : Episode}
    (h : processAudioFile fs filePath baseURL baseDir pubDate episodeNum = .ok ep) :
    ep.FilePath = filePath ∧ ep.PubDate = pubDate ∧ ep.EpisodeNum = episodeNum ∧
    ep.URL = trimSuffix baseURL "/" ++ "/" ++ pathEscape (filepathBase baseDir) ++ "/" ++
      pathEscape (filepathBase filePath) := by
  unfold processAudioFile at h
  cases ho : fs.openFile filePath with
  | error e => rw [ho] at h; exact absurd h (by simp)
  | ok u =>
    rw [ho] at h
    cases hs : fs.statSize filePath with
    | error e => rw [hs] at h; exact absurd h (by simp)
    | ok size =>
      rw [hs] at h
      cases ht : fs.readTag filePath with
      | error e => rw [ht] at h; exact absurd h (by simp)
      | ok tagv =>
        rw [ht] at h
        cases hd : fs.probeDuration filePath with
        | error e => rw [hd] at h; exact absurd h (by simp)
        | ok dur =>
          rw [hd] at h
          injection h with h
          subst h
          exact ⟨rfl, rfl, rfl, rfl⟩

/-- Inversion for the episode loop: a successful `buildEpisodes` run produces
one episode per filename, and the `j`-th episode comes from processing the
`j`-th filename with publication offset `i0 + j` seconds and episode number
`i0 + j + 1`. -/
theorem buildEpisodes_spec (fs : FS) (dir baseURL : String) (now : Int) :
    ∀ (l : List String) (i0 : Nat) (eps : List Episode),
      buildEpisodes fs dir baseURL now i0 l = .ok eps →
      eps.length = l.length ∧
      ∀ j ep, eps[j]? = some ep →
        ∃ name, l[j]? = some name ∧
          processAudioFile fs (filepathJoin dir name) baseURL dir
            (now + ((i0 + j : Nat) : Int) * 1000000000) (i0 + j + 1) = .ok ep
  | [], i0, eps, h => by
    unfold buildEpisodes at h
    injection h with h
    subst h
    exact ⟨rfl, fun j ep hj => by simp at hj⟩
  | filename :: rest, i0, eps, h => by
    unfold buildEpisodes at h
    cases hp : processAudioFile fs (filepathJoin dir filename) baseURL dir
        (now + (i0 : Int) * 1000000000) (i0 + 1) with
    | error e => rw [hp] at h; exact absurd h (by simp)
    | ok episode =>
      rw [hp] at h
      cases hr : buildEpisodes fs dir baseURL now (i0 + 1) rest with
      | error e => rw [hr] at h; exact absurd h (by simp)
      | ok eps' =>
        rw [hr] at h
        injection h with h
        subst h
        obtain ⟨hlen, hspec⟩ := buildEpisodes_spec fs dir baseURL now rest (i0 + 1) eps' hr
        refine ⟨by simp [hlen], ?_⟩
        intro j ep hj
        cases j with
        | zero =>
          simp only [List.getElem?_cons_zero, Option.some.injEq] at hj
          subst hj
          exact ⟨filename, by simp, by simpa using hp⟩
        | succ j' =>
          simp only [List.getElem?_cons_succ] at hj
          obtain ⟨name, hn, hproc⟩ := hspec j' ep hj
          refine ⟨name, by simpa using hn, ?_⟩
          have harith : i0 + 1 + j' = i0 + (j' + 1) := by omega
          rw [harith] at hproc
          exact hproc

/-- The first component of the classification fold is the accumulator
followed by the audio filenames of the entries, in listing order. -/
theorem foldl_scanStep_fst (entries : List DirEntry) :
    ∀ acc cov, (entries.foldl scanStep (acc, cov)).1 = acc ++ audioNames entries := by
  induction entries with
  | nil => intro acc cov; simp [audioNames]
  | cons e rest ih =>
    intro acc cov
    simp only [List.foldl_cons]
    by_cases hd : e.isDir
    · rw [show scanStep (acc, cov) e = (acc, cov) from by simp [scanStep, hd]]
      rw [ih]
      simp [audioNames, List.filter_cons, hd]
    · by_cases ha : supportedAudioExts (toLowerStr (filepathExt e.name)) = true
      · rw [show scanStep (acc, cov) e = (acc ++ [e.name], cov) from by
          simp [scanStep, hd, ha]]
        rw [ih]
        simp [audioNames, List.filter_cons, hd, ha, List.append_assoc]
      · obtain ⟨c, hc⟩ : ∃ c, scanStep (acc, cov) e = (acc, c) := by
          simp only [scanStep, hd, Bool.false_eq_true, if_false, ha]
          split
          · exact ⟨e.name, rfl⟩
          · exact ⟨cov, rfl⟩
        rw [hc, ih]
        simp [audioNames, List.filter_cons, hd, ha]

/-- The sort used by the scanner is a permutation of its input. -/
theorem sortStrings_perm (l : List String) : (sortStrings l).Perm l :=
  List.perm_insertionSort _ l

/-- The comparison the scanner sorts by is total. -/
theorem strLe_total (a b : String) : strLe a b = true ∨ strLe b a = true := by
  show charListLe a.data b.data = true ∨ charListLe b.data a.data = true
  generalize a.data = l1
  generalize b.data = l2
  induction l1 generalizing l2 with
  | nil => left; rfl
  | cons c1 t1 ih =>
    cases l2 with
    | nil => right; rfl
    | cons c2 t2 =>
      by_cases h12 : c1 < c2
      · left; simp [charListLe, h12]
      · by_cases h21 : c2 < c1
        · right; simp [charListLe, h21]
        · rcases ih t2 with h | h
          · left; simp [charListLe, h12, h21, h]
          · right; simp [charListLe, h12, h21, h]

/-- The comparison the scanner sorts by is transitive. -/
theorem strLe_trans {a b c : String} (hab : strLe a b = true) (hbc : strLe b c = true) :
    strLe a c = true := by
  revert hab hbc
  show charListLe a.data b.data = true → charListLe b.data c.data = true →
    charListLe a.data c.data = true
  generalize a.data = l1
  generalize b.data = l2
  generalize c.data = l3
  induction l1 generalizing l2 l3 with
  | nil => intro _ _; rfl
  | cons c1 t1 ih =>
    cases l2 with
    | nil => intro h; exact absurd h (by simp [charListLe])
    | cons c2 t2 =>
      cases l3 with
      | nil => intro _ h; exact absurd h (by simp [charListLe])
      | cons c3 t3 =>
        intro hab hbc
        by_cases h12 : c1 < c2
        · by_cases h23 : c2 < c3
          · simp [charListLe, Char.lt_trans h12 h23]
          · by_cases h32 : c3 < c2
            · simp only [charListLe, h23, if_false, h32, if_true] at hbc
              exact absurd hbc (by simp)
            · have he : c2 = c3 := Char.le_antisymm (Char.not_lt.mp h32) (Char.not_lt.mp h23)
              subst he
              simp [charListLe, h12]
        · by_cases h21 : c2 < c1
          · simp only [charListLe, h12, if_false, h21, if_true] at hab
            exact absurd hab (by simp)
          · have he : c1 = c2 := Char.le_antisymm (Char.not_lt.mp h21) (Char.not_lt.mp h12)
            subst he
            simp only [charListLe, if_neg h12] at hab
            by_cases h23 : c1 < c3
            · simp [charListLe, h23]
            · by_cases h32 : c3 < c1
              · simp only [charListLe, h23, if_false, h32, if_true] at hbc
                exact absurd hbc (by simp)
              · simp only [charListLe, h23, if_false, h32, if_true] at hbc ⊢
                exact ih t2 t3 hab hbc

/-- The sort used by the scanner yields an ascending (lexicographic) list. -/
theorem sortStrings_sorted (l : List String) :
    (sortStrings l).Pairwise (fun a b => strLe a b = true) := by
  have : IsTotal String (fun a b => strLe a b = true) := ⟨strLe_total⟩
  have : IsTrans String (fun a b => strLe a b = true) := ⟨fun _ _ _ => strLe_trans⟩
  exact List.sorted_insertionSort _ l

/-- The length of the sort's output. -/
theorem sortStrings_length (l : List String) : (sortStrings l).length = l.length :=
  (sortStrings_perm l).length_eq

/-- Inversion for `scanDirectory`: a successful scan yields the directory
title and description, the sorted audio list threaded through
`buildEpisodes` starting at index 0, and the cover-art URL. -/
theorem scanDirectory_ok_spec {fs : FS} {entries : List DirEntry}
    {dir baseURL : String} {now : Int} {p : Podcast}
    (h : scanDirectory fs (.ok entries) dir baseURL now = .ok p) :
    p.Title = filepathBase dir ∧
    p.Description = "Audiobook podcast for " ++ filepathBase dir ∧
    buildEpisodes fs dir baseURL now 0 (sortStrings (audioNames entries)) = .ok p.Episodes := by
  unfold scanDirectory at h
  dsimp only at h
  rw [show (entries.foldl scanStep ([], "")).1 = audioNames entries by
    simpa using foldl_scanStep_fst entries [] ""] at h
  cases hb : buildEpisodes fs dir baseURL now 0 (sortStrings (audioNames entries)) with
  | error e => rw [hb] at h; exact absurd h (by simp)
  | ok episodes =>
    rw [hb] at h
    injection h with h
    subst h
    exact ⟨rfl, rfl, rfl⟩


/-- C1: when a scan succeeds with N audio files, the feed has exactly N item
elements, the episode numbers are exactly 1..N in list order, and position
`j` holds the file at position `j` of the ascending lexicographic sort of
the audio filenames, so list position, episode number and sorted-filename
order agree. -/
theorem C1_item_count_and_numbering (fs : FS) (entries : List DirEntry)
    (dir baseURL : String) (now renderNow : Int) (fmtTime : Int → String) (p : Podcast)
    (h : scanDirectory fs (.ok entries) dir baseURL now = .ok p) :
    p.Episodes.length = (audioNames entries).length ∧
    (sortStrings (audioNames entries)).Perm (audioNames entries) ∧
    (sortStrings (audioNames entries)).Pairwise (fun a b => strLe a b = true) ∧
    (∀ j ep, p.Episodes[j]? = some ep →
      ep.EpisodeNum = j + 1 ∧
      ∃ name, (sortStrings (audioNames entries))[j]? = some name ∧
        ep.FilePath = filepathJoin dir name) ∧
    (buildRSS fmtTime p renderNow).Channel.Items.length = p.Episodes.length ∧
    (∀ j it, (buildRSS fmtTime p renderNow).Channel.Items[j]? = some it →
      it.ItunesEpisode = j + 1) := by
  obtain ⟨-, -, hb⟩ := scanDirectory_ok_spec h
  obtain ⟨hlen, hspec⟩ := buildEpisodes_spec fs dir baseURL now _ 0 _ hb
  refine ⟨by rw [hlen, sortStrings_length], sortStrings_perm _, sortStrings_sorted _, ?_, ?_, ?_⟩
  · intro j ep hj
    obtain ⟨name, hn, hproc⟩ := hspec j ep hj
    obtain ⟨hfp, -, hnum, -⟩ := processAudioFile_fields hproc
    exact ⟨by simpa using hnum, name, hn, hfp⟩
  · simp [buildRSS, buildChannel]
  · intro j it hit
    simp only [buildRSS, buildChannel, List.getElem?_map] at hit
    cases hep : p.Episodes[j]? with
    | none => rw [hep] at hit; exact absurd hit (by simp)
    | some ep =>
      rw [hep] at hit
      simp only [Option.map_some', Option.some.injEq] at hit
      obtain ⟨name, hn, hproc⟩ := hspec j ep hep
      obtain ⟨-, -, hnum, -⟩ := processAudioFile_fields hproc
      subst hit
      simpa [mkItem] using hnum

/-- Witness for C1 at the demo directory. -/
theorem C1_witness :
    demoPodcast.Episodes.length = (audioNames demoEntries).length ∧
    (buildRSS demoFmt demoPodcast 9).Channel.Items.length = demoPodcast.Episodes.length := by
  have h := C1_item_count_and_numbering demoFS demoEntries "bk" "u/" 5 9 demoFmt demoPodcast
    (by rfl)
  exact ⟨h.1, h.2.2.2.2.1⟩

/-- C2: each scan captures one `now`; the episode at sorted position `j`
(0-based) is published at `now + j` seconds, so consecutive sorted episodes
differ by exactly one second and are strictly increasing. -/
theorem C2_pubdate_ladder (fs : FS) (entries : List DirEntry)
    (dir baseURL : String) (now : Int) (p : Podcast)
    (h : scanDirectory fs (.ok entries) dir baseURL now = .ok p) :
    (∀ (j : Nat) (ep : Episode), p.Episodes[j]? = some ep →
      ep.PubDate = now + (j : Int) * 1000000000) ∧
    (∀ (j : Nat) (ep ep' : Episode), p.Episodes[j]? = some ep → p.Episodes[j + 1]? = some ep' →
      ep'.PubDate = ep.PubDate + 1000000000 ∧ ep.PubDate < ep'.PubDate) := by
  obtain ⟨-, -, hb⟩ := scanDirectory_ok_spec h
  obtain ⟨hlen, hspec⟩ := buildEpisodes_spec fs dir baseURL now _ 0 _ hb
  have hpd : ∀ (j : Nat) (ep : Episode), p.Episodes[j]? = some ep →
      ep.PubDate = now + (j : Int) * 1000000000 := by
    intro j ep hj
    obtain ⟨name, hn, hproc⟩ := hspec j ep hj
    obtain ⟨-, hpub, -, -⟩ := processAudioFile_fields hproc
    simpa using hpub
  refine ⟨hpd, fun j ep ep' hj hj' => ?_⟩
  have h1 := hpd j ep hj
  have h2 := hpd (j + 1) ep' hj'
  rw [h1, h2]
  push_cast
  constructor
  · ring
  · omega

/-- Witness for C2 at the demo directory. -/
theorem C2_witness :
    demoPodcast.Episodes[0]?.map Episode.PubDate = some (5 + (0 : Int) * 1000000000) ∧
    demoPodcast.Episodes[1]?.map Episode.PubDate = some (5 + (1 : Int) * 1000000000) := by
  have h := C2_pubdate_ladder demoFS demoEntries "bk" "u/" 5 demoPodcast (by rfl)
  constructor
  · cases hep : demoPodcast.Episodes[0]? with
    | none => exact absurd hep (by decide)
    | some ep => simp [h.1 0 ep hep]
  · cases hep : demoPodcast.Episodes[1]? with
    | none => exact absurd hep (by decide)
    | some ep => simp [h.1 1 ep hep]

/-- C3: the episode description is the tag comment when that comment is
non-empty and differs from the literal `iTunPGAP`, and otherwise is the
resolved title. -/
theorem C3_description_resolution (fs : FS) (filePath baseURL baseDir : String)
    (pubDate : Int) (episodeNum : Nat) (tagv : Tag) (ep : Episode)
    (htag : fs.readTag filePath = .ok tagv)
    (h : processAudioFile fs filePath baseURL baseDir pubDate episodeNum = .ok ep) :
    ep.Description =
      (if tagv.comment ≠ "" ∧ tagv.comment ≠ "iTunPGAP" then tagv.comment else ep.Title) :=
  (processAudioFile_ok_spec htag h).2.1

/-- Witness for C3 at the demo file. -/
theorem C3_witness :
    demoEp.Description =
      (if demoTag.comment ≠ "" ∧ demoTag.comment ≠ "iTunPGAP" then demoTag.comment
       else demoEp.Title) :=
  C3_description_resolution demoFS "bk/a.mp3" "u/" "bk" 5 1 demoTag demoEp rfl (by rfl)

/-- C10: the podcast title is the directory's base name and the description
is exactly `Audiobook podcast for ` followed by that base name. -/
theorem C10_podcast_title_description (fs : FS) (entries : List DirEntry)
    (dir baseURL : String) (now : Int) (p : Podcast)
    (h : scanDirectory fs (.ok entries) dir baseURL now = .ok p) :
    p.Title = filepathBase dir ∧
    p.Description = "Audiobook podcast for " ++ filepathBase dir :=
  ⟨(scanDirectory_ok_spec h).1, (scanDirectory_ok_spec h).2.1⟩

/-- Witness for C10 at the demo directory. -/
theorem C10_witness :
    demoPodcast.Title = filepathBase "bk" ∧
    demoPodcast.Description = "Audiobook podcast for " ++ filepathBase "bk" :=
  C10_podcast_title_description demoFS demoEntries "bk" "u/" 5 demoPodcast (by rfl)

/-- A `processAudioFile` call succeeds exactly when the four external calls
for its path succeed; in particular success does not depend on the
publication date or episode number arguments. -/
theorem processAudioFile_isOk (fs : FS) (filePath baseURL baseDir : String)
    (pubDate : Int) (episodeNum : Nat) :
    (processAudioFile fs filePath baseURL baseDir pubDate episodeNum).toBool =
      procOk fs filePath := by
  unfold processAudioFile procOk
  cases ho : fs.openFile filePath with
  | error e => simp [Except.toBool]
  | ok u =>
    cases hs : fs.statSize filePath with
    | error e => simp [Except.toBool]
    | ok size =>
      cases ht : fs.readTag filePath with
      | error e => simp [Except.toBool]
      | ok tagv =>
        cases hd : fs.probeDuration filePath with
        | error e => simp [Except.toBool]
        | ok dur => simp [Except.toBool]

/-- If any listed file fails one of its external calls, the episode loop
fails. -/
theorem buildEpisodes_error_of_procFail (fs : FS) (dir baseURL : String) (now : Int) :
    ∀ (l : List String) (i0 : Nat),
      (∃ name ∈ l, procOk fs (filepathJoin dir name) = false) →
      ∃ e, buildEpisodes fs dir baseURL now i0 l = .error e
  | [], _, h => absurd h (by simp)
  | filename :: rest, i0, h => by
    unfold buildEpisodes
    cases hp : processAudioFile fs (filepathJoin dir filename) baseURL dir
        (now + (i0 : Int) * 1000000000) (i0 + 1) with
    | error e => exact ⟨_, rfl⟩
    | ok episode =>
      have hok : procOk fs (filepathJoin dir filename) = true := by
        have hb := processAudioFile_isOk fs (filepathJoin dir filename) baseURL dir
          (now + (i0 : Int) * 1000000000) (i0 + 1)
        rw [hp] at hb
        simpa [Except.toBool] using hb.symm
      obtain ⟨name, hmem, hfail⟩ := h
      rcases List.mem_cons.mp hmem with heq | hmem2
      · subst heq
        rw [hok] at hfail
        cases hfail
      · obtain ⟨e, he⟩ := buildEpisodes_error_of_procFail fs dir baseURL now rest (i0 + 1)
          ⟨name, hmem2, hfail⟩
        rw [he]
        exact ⟨e, rfl⟩

/-- If the episode loop succeeds, every listed file passed all of its
external calls. -/
theorem buildEpisodes_ok_procOk (fs : FS) (dir baseURL : String) (now : Int) :
    ∀ (l : List String) (i0 : Nat) (eps : List Episode),
      buildEpisodes fs dir baseURL now i0 l = .ok eps →
      ∀ name ∈ l, procOk fs (filepathJoin dir name) = true
  | [], _, _, _ => by simp
  | filename :: rest, i0, eps, h => by
    unfold buildEpisodes at h
    cases hp : processAudioFile fs (filepathJoin dir filename) baseURL dir
        (now + (i0 : Int) * 1000000000) (i0 + 1) with
    | error e => rw [hp] at h; exact absurd h (by simp)
    | ok episode =>
      rw [hp] at h
      cases hr : buildEpisodes fs dir baseURL now (i0 + 1) rest with
      | error e => rw [hr] at h; exact absurd h (by simp)
      | ok eps2 =>
        intro name hmem
        rcases List.mem_cons.mp hmem with heq | hmem2
        · subst heq
          have hb := processAudioFile_isOk fs (filepathJoin dir name) baseURL dir
            (now + (i0 : Int) * 1000000000) (i0 + 1)
          rw [hp] at hb
          simpa [Except.toBool] using hb.symm
        · exact buildEpisodes_ok_procOk fs dir baseURL now rest (i0 + 1) eps2 hr name hmem2

/-- A failing file makes the whole scan fail. -/
theorem scanDirectory_error_of_procFail {fs : FS} {entries : List DirEntry}
    {dir baseURL : String} {now : Int}
    (hfail : ∃ name ∈ audioNames entries, procOk fs (filepathJoin dir name) = false) :
    ∃ e, scanDirectory fs (.ok entries) dir baseURL now = .error e := by
  have hfail2 : ∃ name ∈ sortStrings (audioNames entries),
      procOk fs (filepathJoin dir name) = false := by
    obtain ⟨name, hm, hf⟩ := hfail
    exact ⟨name, ((sortStrings_perm _).mem_iff).mpr hm, hf⟩
  obtain ⟨e, he⟩ := buildEpisodes_error_of_procFail fs dir baseURL now
    (sortStrings (audioNames entries)) 0 hfail2
  unfold scanDirectory
  dsimp only
  rw [show (entries.foldl scanStep ([], "")).1 = audioNames entries from by
    simpa using foldl_scanStep_fst entries [] ""]
  rw [he]
  exact ⟨e, rfl⟩

/-- C4: fail-fast with no incomplete output.  If any single audio file fails
(unreadable, tag parse failure, or duration-probe failure) the scan returns
an error, no podcast value is produced, and the run exits 1 without writing
the RSS file.  Conversely, whenever the run writes the RSS file, the scan
succeeded, the written content is the rendered feed of the full episode
list (one episode per audio file), and every audio file was processed
successfully. -/
theorem C4_fail_fast_no_output_on_error (inp : MainInput) (entries : List DirEntry)
    (hrd : inp.readDir = .ok entries) :
    ((∃ name ∈ audioNames entries,
        procOk inp.fs (filepathJoin (inp.args.headD "") name) = false) →
      (∃ e, scanDirectory inp.fs inp.readDir (inp.args.headD "") inp.baseURL inp.scanNow =
        .error e) ∧
      mainRun inp = { exitCode := 1, written := none }) ∧
    (∀ path content, (mainRun inp).written = some (path, content) →
      ∃ p, scanDirectory inp.fs inp.readDir (inp.args.headD "") inp.baseURL inp.scanNow = .ok p ∧
        content = generateRSS inp.marshal inp.fmtTime p inp.renderNow ∧
        path = filepathJoin (inp.args.headD "") "podcast.rss" ∧
        p.Episodes.length = (audioNames entries).length ∧
        ∀ name ∈ audioNames entries,
          procOk inp.fs (filepathJoin (inp.args.headD "") name) = true) := by
  constructor
  · intro hfail
    obtain ⟨e, he⟩ : ∃ e, scanDirectory inp.fs inp.readDir (inp.args.headD "") inp.baseURL
        inp.scanNow = .error e := by
      rw [hrd]
      exact scanDirectory_error_of_procFail hfail
    refine ⟨⟨e, he⟩, ?_⟩
    unfold mainRun
    dsimp only
    by_cases h1 : inp.baseURL = ""
    · rw [if_pos h1]
    · rw [if_neg h1]
      by_cases h2 : inp.args.length ≠ 1
      · rw [if_pos h2]
      · rw [if_neg h2]
        by_cases h3 : inp.dirExists = true
        · rw [if_neg (by simp [h3]), he]
        · rw [if_pos (by simp [h3])]
  · intro path content hw
    unfold mainRun at hw
    dsimp only at hw
    by_cases h1 : inp.baseURL = ""
    · rw [if_pos h1] at hw
      exact absurd hw (by simp)
    · rw [if_neg h1] at hw
      by_cases h2 : inp.args.length ≠ 1
      · rw [if_pos h2] at hw
        exact absurd hw (by simp)
      · rw [if_neg h2] at hw
        by_cases h3 : inp.dirExists = true
        · rw [if_neg (by simp [h3])] at hw
          cases hs : scanDirectory inp.fs inp.readDir (inp.args.headD "") inp.baseURL
              inp.scanNow with
          | error e => rw [hs] at hw; exact absurd hw (by simp)
          | ok p =>
            rw [hs] at hw
            dsimp only at hw
            by_cases h4 : p.Episodes.length = 0
            · rw [if_pos h4] at hw
              exact absurd hw (by simp)
            · rw [if_neg h4] at hw
              by_cases h5 : inp.writeOk = true
              · rw [if_pos h5] at hw
                simp only [Option.some.injEq, Prod.mk.injEq] at hw
                obtain ⟨hpath, hcontent⟩ := hw
                rw [hrd] at hs
                obtain ⟨-, -, hb⟩ := scanDirectory_ok_spec hs
                obtain ⟨hlen, -⟩ := buildEpisodes_spec inp.fs (inp.args.headD "") inp.baseURL
                  inp.scanNow _ 0 _ hb
                refine ⟨p, rfl, hcontent.symm, hpath.symm,
                  by rw [hlen, sortStrings_length], ?_⟩
                intro name hm
                exact buildEpisodes_ok_procOk inp.fs (inp.args.headD "") inp.baseURL inp.scanNow
                  _ 0 _ hb name (((sortStrings_perm _).mem_iff).mpr hm)
              · rw [if_neg h5] at hw
                exact absurd hw (by simp)
        · rw [if_pos (by simp [h3])] at hw
          exact absurd hw (by simp)

/-- Witness for C4: with one failing duration probe the run exits 1 and
writes nothing. -/
theorem C4_witness :
    mainRun failInput = { exitCode := 1, written := none } := by
  have h := C4_fail_fast_no_output_on_error failInput demoEntries rfl
  exact (h.1 ⟨"b.mp3", by decide, by decide⟩).2

/-- C5 counterexample: a file named `.mp3` is classified as a supported
audio file, yet with an empty tag title its episode title is the empty
string (the filename minus its extension is empty), refuting the claimed
non-emptiness invariant. -/
theorem C5_counterexample :
    (processAudioFile emptyTagFS "bk/.mp3" "u" "bk" 0 1).map Episode.Title = .ok "" ∧
    audioNames [{ name := ".mp3", isDir := false }] = [".mp3"] :=
  ⟨rfl, rfl⟩

/-- C5 (amended): the episode title is the tag title when that is non-empty
and otherwise the filename with its extension stripped; the result is
non-empty provided the tag title is non-empty or the filename differs from
its own extension (it is empty for an untagged dotfile such as `.mp3`). -/
theorem C5_title_resolution (fs : FS) (filePath baseURL baseDir : String)
    (pubDate : Int) (episodeNum : Nat) (tagv : Tag) (ep : Episode)
    (htag : fs.readTag filePath = .ok tagv)
    (h : processAudioFile fs filePath baseURL baseDir pubDate episodeNum = .ok ep) :
    ep.Title = (if tagv.title = "" then
        trimSuffix (filepathBase filePath) (filepathExt (filepathBase filePath))
      else tagv.title) ∧
    ((tagv.title ≠ "" ∨
        trimSuffix (filepathBase filePath) (filepathExt (filepathBase filePath)) ≠ "") →
      ep.Title ≠ "") := by
  have h1 := (processAudioFile_ok_spec htag h).1
  refine ⟨h1, fun hne => ?_⟩
  rw [h1]
  by_cases ht : tagv.title = ""
  · rw [if_pos ht]
    rcases hne with h2 | h2
    · exact absurd ht h2
    · exact h2
  · rw [if_neg ht]
    exact ht

/-- Witness for the amended C5 at the demo file. -/
theorem C5_witness :
    demoEp.Title = (if demoTag.title = "" then
        trimSuffix (filepathBase "bk/a.mp3") (filepathExt (filepathBase "bk/a.mp3"))
      else demoTag.title) ∧
    demoEp.Title ≠ "" := by
  have h := C5_title_resolution demoFS "bk/a.mp3" "u/" "bk" 5 1 demoTag demoEp rfl (by rfl)
  exact ⟨h.1, h.2 (Or.inl (by decide))⟩

/-- C6 counterexample: with a faulting serializer the run is not treated as
fatal; it exits 0 and writes an empty `podcast.rss` — silently produced
output that is not the serialization of the podcast. -/
theorem C6_counterexample :
    mainRun marshalFailInput =
      { exitCode := 0, written := some (filepathJoin "bk" "podcast.rss", "") } := by rfl

/-- C6 (amended): on an internal serialization fault `generateRSS` returns
the empty string instead of failing the run; a run that reaches rendering
then writes that empty file and exits 0 when the write succeeds — the fault
is swallowed, not fatal. -/
theorem C6_marshal_fault_not_fatal (inp : MainInput) (p : Podcast)
    (hb : inp.baseURL ≠ "") (hargs : ¬ inp.args.length ≠ 1) (hex : inp.dirExists = true)
    (hscan : scanDirectory inp.fs inp.readDir (inp.args.headD "") inp.baseURL inp.scanNow =
      .ok p)
    (hnz : ¬ p.Episodes.length = 0) (hwr : inp.writeOk = true)
    (hfault : ∃ e, inp.marshal (buildRSS inp.fmtTime p inp.renderNow) = .error e) :
    generateRSS inp.marshal inp.fmtTime p inp.renderNow = "" ∧
    mainRun inp =
      { exitCode := 0,
        written := some (filepathJoin (inp.args.headD "") "podcast.rss", "") } := by
  obtain ⟨e, he⟩ := hfault
  have hgen : generateRSS inp.marshal inp.fmtTime p inp.renderNow = "" := by
    unfold generateRSS
    rw [he]
  refine ⟨hgen, ?_⟩
  unfold mainRun
  dsimp only
  rw [if_neg hb, if_neg hargs, if_neg (by simp [hex]), hscan]
  dsimp only
  rw [if_neg hnz, if_pos hwr, hgen]

/-- Witness for the amended C6 at the demo directory. -/
theorem C6_witness :
    generateRSS marshalFailInput.marshal marshalFailInput.fmtTime demoPodcast
        marshalFailInput.renderNow = "" ∧
    mainRun marshalFailInput =
      { exitCode := 0, written := some (filepathJoin "bk" "podcast.rss", "") } := by
  have h := C6_marshal_fault_not_fatal marshalFailInput demoPodcast (by decide) (by decide)
    rfl (by rfl) (by decide) rfl ⟨"marshal fault", rfl⟩
  exact ⟨h.1, h.2⟩

/-- C7: for positive durations the rendered duration string is `H:MM:SS`
(hours undecorated, two-digit minutes and seconds) when the whole-hour count
is positive and `M:SS` otherwise; 3725 seconds formats as `1:02:05`; and an
episode of duration exactly zero has its duration element omitted from the
rendered item. -/
theorem C7_duration_formatting (d : Nat) (hd : 0 < d) :
    (0 < d / 1000000000 / 3600 →
      formatDuration d =
        Nat.repr (d / 1000000000 / 3600) ++ ":" ++
          pad2 (d / 1000000000 % 3600 / 60) ++ ":" ++ pad2 (d / 1000000000 % 60)) ∧
    (d / 1000000000 / 3600 = 0 →
      formatDuration d =
        Nat.repr (d / 1000000000 / 60) ++ ":" ++ pad2 (d / 1000000000 % 60)) ∧
    (∀ n, n < 60 → (pad2 n).length = 2) ∧
    formatDuration 3725000000000 = "1:02:05" ∧
    (∀ (fmtTime : Int → String) (ep : Episode), ep.Duration = 0 →
      (mkItem fmtTime ep).ItunesDuration = none) := by
  have e1 : d / 3600000000000 = d / 1000000000 / 3600 := by
    rw [Nat.div_div_eq_div_mul]
  have e2 : d / 60000000000 % 60 = d / 1000000000 % 3600 / 60 := by omega
  have e4 : d / 60000000000 = d / 1000000000 / 60 := by
    rw [Nat.div_div_eq_div_mul]
  refine ⟨?_, ?_, by decide, by rfl, fun fmtTime ep h => by simp [mkItem, h]⟩
  · intro hh
    unfold formatDuration
    rw [if_pos (by omega : d / 3600000000000 > 0)]
    rw [e1, e2, show d / 1000000000 % 60 = d / 1000000000 % 60 from rfl]
  · intro hh
    unfold formatDuration
    rw [if_neg (by omega : ¬ d / 3600000000000 > 0)]
    have e3 : d / 60000000000 % 60 = d / 1000000000 / 60 := by omega
    rw [e3]

/-- Witness for C7 at 3725 seconds (one hour, two minutes, five seconds). -/
theorem C7_witness :
    formatDuration 3725000000000 = "1:02:05" ∧
    formatDuration 3725000000000 =
      Nat.repr (3725000000000 / 1000000000 / 3600) ++ ":" ++
        pad2 (3725000000000 / 1000000000 % 3600 / 60) ++ ":" ++
        pad2 (3725000000000 / 1000000000 % 60) := by
  have h := C7_duration_formatting 3725000000000 (by norm_num)
  exact ⟨h.2.2.2.1, h.1 (by norm_num)⟩

/-- C9: every rendered item carries the episode URL as both guid and
enclosure URL, its pubDate is formatted from the episode's assigned
timestamp (not from render time), and its episode-number element matches the
episode. -/
theorem C9_guid_equals_enclosure_url (fmtTime : Int → String) (podcast : Podcast)
    (renderNow : Int) (j : Nat) (it : Item)
    (hit : (buildRSS fmtTime podcast renderNow).Channel.Items[j]? = some it) :
    ∃ ep, podcast.Episodes[j]? = some ep ∧
      it.GUID = it.Enclosure.URL ∧ it.GUID = ep.URL ∧
      it.PubDate = fmtTime ep.PubDate ∧ it.ItunesEpisode = ep.EpisodeNum := by
  simp only [buildRSS, buildChannel, List.getElem?_map] at hit
  cases hep : podcast.Episodes[j]? with
  | none => rw [hep] at hit; exact absurd hit (by simp)
  | some ep =>
    rw [hep] at hit
    simp only [Option.map_some', Option.some.injEq] at hit
    subst hit
    exact ⟨ep, rfl, rfl, rfl, rfl, rfl⟩

/-- Witness for C9 at the demo feed. -/
theorem C9_witness :
    (buildRSS demoFmt demoPodcast 9).Channel.Items[0]?.map Item.GUID =
      (buildRSS demoFmt demoPodcast 9).Channel.Items[0]?.map (fun it => it.Enclosure.URL) := by
  cases hit : (buildRSS demoFmt demoPodcast 9).Channel.Items[0]? with
  | none => rfl
  | some it =>
    obtain ⟨ep, -, hg, -, -, -⟩ := C9_guid_equals_enclosure_url demoFmt demoPodcast 9 0 it hit
    simp [hg]

/-- Hex digits decode back to their value. -/
theorem unhex_hexUpper : ∀ n, n < 16 → unhex (hexUpper n) = some n := by decide

set_option maxRecDepth 8192 in
/-- Every byte of an escaped byte is ASCII; in particular unescaped bytes
are below 128. -/
theorem escapeByte_ascii : ∀ b, b < 256 → ∀ x ∈ escapeByte b, x < 128 := by decide

/-- The percent sign itself is always escaped. -/
theorem shouldEscape_percent : shouldEscape 37 = true := by decide

/-- Unfolding equation of `unescapeBytes` at an unescaped byte. -/
theorem unescapeBytes_cons_ne {b : Nat} (hbne : b ≠ 37) (rest : List Nat) :
    unescapeBytes (b :: rest) = (unescapeBytes rest).map (fun l => b :: l) := by
  rw [unescapeBytes.eq_def]
  dsimp only
  rw [if_neg hbne]

/-- Byte-level round trip: unescaping the escaped byte stream recovers the
original bytes. -/
theorem unescape_escape (bs : List Nat) (h : ∀ b ∈ bs, b < 256) :
    unescapeBytes (concatMap escapeByte bs) = some bs := by
  induction bs with
  | nil => rfl
  | cons b rest ih =>
    have hb : b < 256 := h b (List.mem_cons_self b rest)
    have hrest : ∀ x ∈ rest, x < 256 := fun x hx => h x (List.mem_cons_of_mem b hx)
    show unescapeBytes (escapeByte b ++ concatMap escapeByte rest) = some (b :: rest)
    by_cases hesc : shouldEscape b = true
    · rw [show escapeByte b = [37, hexUpper (b / 16), hexUpper (b % 16)] from by
        simp [escapeByte, hesc]]
      show unescapeBytes
        (37 :: hexUpper (b / 16) :: hexUpper (b % 16) :: concatMap escapeByte rest) = _
      rw [unescapeBytes.eq_def]
      dsimp only
      rw [if_pos rfl]
      rw [unhex_hexUpper (b / 16) (by omega), unhex_hexUpper (b % 16) (by omega)]
      dsimp only
      rw [ih hrest]
      simp only [Option.map_some']
      rw [show b / 16 * 16 + b % 16 = b from by omega]
    · have hbne : b ≠ 37 := by
        intro hb37
        rw [hb37, shouldEscape_percent] at hesc
        exact hesc rfl
      rw [show escapeByte b = [b] from by
        simp [escapeByte, hesc]]
      show unescapeBytes (b :: concatMap escapeByte rest) = _
      rw [unescapeBytes_cons_ne hbne, ih hrest]
      rfl

/-- First case equation of `utf8Bytes` (ASCII). -/
theorem utf8Bytes_eq1 {n : Nat} (h : n < 0x80) : utf8Bytes n = [n] := by
  unfold utf8Bytes
  rw [if_pos h]

/-- Second case equation of `utf8Bytes` (two bytes). -/
theorem utf8Bytes_eq2 {n : Nat} (h1 : ¬ n < 0x80) (h2 : n < 0x800) :
    utf8Bytes n = [0xC0 + n / 0x40, 0x80 + n % 0x40] := by
  unfold utf8Bytes
  rw [if_neg h1, if_pos h2]

/-- Third case equation of `utf8Bytes` (three bytes). -/
theorem utf8Bytes_eq3 {n : Nat} (h1 : ¬ n < 0x80) (h2 : ¬ n < 0x800) (h3 : n < 0x10000) :
    utf8Bytes n = [0xE0 + n / 0x1000, 0x80 + n / 0x40 % 0x40, 0x80 + n % 0x40] := by
  unfold utf8Bytes
  rw [if_neg h1, if_neg h2, if_pos h3]

/-- Fourth case equation of `utf8Bytes` (four bytes). -/
theorem utf8Bytes_eq4 {n : Nat} (h1 : ¬ n < 0x80) (h2 : ¬ n < 0x800) (h3 : ¬ n < 0x10000) :
    utf8Bytes n = [0xF0 + n / 0x40000, 0x80 + n / 0x1000 % 0x40, 0x80 + n / 0x40 % 0x40,
      0x80 + n % 0x40] := by
  unfold utf8Bytes
  rw [if_neg h1, if_neg h2, if_neg h3]

/-- A UTF-8 encoding is never empty. -/
theorem utf8Bytes_ne_nil (n : Nat) : utf8Bytes n ≠ [] := by
  by_cases h1 : n < 0x80
  · rw [utf8Bytes_eq1 h1]; simp
  · by_cases h2 : n < 0x800
    · rw [utf8Bytes_eq2 h1 h2]; simp
    · by_cases h3 : n < 0x10000
      · rw [utf8Bytes_eq3 h1 h2 h3]; simp
      · rw [utf8Bytes_eq4 h1 h2 h3]; simp

/-- Every code point is below the Unicode bound. -/
theorem char_toNat_lt (c : Char) : c.toNat < 0x110000 := by
  show c.val.toNat < 0x110000
  rcases c.valid with h | h
  · omega
  · exact h.2

/-- UTF-8 encodings are prefix-free: if two encodings start the same byte
stream, the encoded code points and the remainders agree. -/
theorem utf8Bytes_append_inj {n1 n2 : Nat} (h1 : n1 < 0x110000) (h2 : n2 < 0x110000)
    {r1 r2 : List Nat} (h : utf8Bytes n1 ++ r1 = utf8Bytes n2 ++ r2) :
    n1 = n2 ∧ r1 = r2 := by
  by_cases a1 : n1 < 0x80
  · rw [utf8Bytes_eq1 a1] at h
    by_cases b1 : n2 < 0x80
    · rw [utf8Bytes_eq1 b1] at h
      simp only [List.cons_append, List.nil_append, List.cons.injEq] at h
      exact ⟨h.1, h.2⟩
    · by_cases b2 : n2 < 0x800
      · rw [utf8Bytes_eq2 b1 b2] at h
        simp only [List.cons_append, List.nil_append, List.cons.injEq] at h
        exact absurd h.1 (by omega)
      · by_cases b3 : n2 < 0x10000
        · rw [utf8Bytes_eq3 b1 b2 b3] at h
          simp only [List.cons_append, List.nil_append, List.cons.injEq] at h
          exact absurd h.1 (by omega)
        · rw [utf8Bytes_eq4 b1 b2 b3] at h
          simp only [List.cons_append, List.nil_append, List.cons.injEq] at h
          exact absurd h.1 (by omega)
  · by_cases a2 : n1 < 0x800
    · rw [utf8Bytes_eq2 a1 a2] at h
      by_cases b1 : n2 < 0x80
      · rw [utf8Bytes_eq1 b1] at h
        simp only [List.cons_append, List.nil_append, List.cons.injEq] at h
        exact absurd h.1 (by omega)
      · by_cases b2 : n2 < 0x800
        · rw [utf8Bytes_eq2 b1 b2] at h
          simp only [List.cons_append, List.nil_append, List.cons.injEq] at h
          exact ⟨by omega, h.2.2⟩
        · by_cases b3 : n2 < 0x10000
          · rw [utf8Bytes_eq3 b1 b2 b3] at h
            simp only [List.cons_append, List.nil_append, List.cons.injEq] at h
            exact absurd h.1 (by omega)
          · rw [utf8Bytes_eq4 b1 b2 b3] at h
            simp only [List.cons_append, List.nil_append, List.cons.injEq] at h
            exact absurd h.1 (by omega)
    · by_cases a3 : n1 < 0x10000
      · rw [utf8Bytes_eq3 a1 a2 a3] at h
        by_cases b1 : n2 < 0x80
        · rw [utf8Bytes_eq1 b1] at h
          simp only [List.cons_append, List.nil_append, List.cons.injEq] at h
          exact absurd h.1 (by omega)
        · by_cases b2 : n2 < 0x800
          · rw [utf8Bytes_eq2 b1 b2] at h
            simp only [List.cons_append, List.nil_append, List.cons.injEq] at h
            exact absurd h.1 (by omega)
          · by_cases b3 : n2 < 0x10000
            · rw [utf8Bytes_eq3 b1 b2 b3] at h
              simp only [List.cons_append, List.nil_append, List.cons.injEq] at h
              exact ⟨by omega, h.2.2.2⟩
            · rw [utf8Bytes_eq4 b1 b2 b3] at h
              simp only [List.cons_append, List.nil_append, List.cons.injEq] at h
              exact absurd h.1 (by omega)
      · rw [utf8Bytes_eq4 a1 a2 a3] at h
        by_cases b1 : n2 < 0x80
        · rw [utf8Bytes_eq1 b1] at h
          simp only [List.cons_append, List.nil_append, List.cons.injEq] at h
          exact absurd h.1 (by omega)
        · by_cases b2 : n2 < 0x800
          · rw [utf8Bytes_eq2 b1 b2] at h
            simp only [List.cons_append, List.nil_append, List.cons.injEq] at h
            exact absurd h.1 (by omega)
          · by_cases b3 : n2 < 0x10000
            · rw [utf8Bytes_eq3 b1 b2 b3] at h
              simp only [List.cons_append, List.nil_append, List.cons.injEq] at h
              exact absurd h.1 (by omega)
            · rw [utf8Bytes_eq4 b1 b2 b3] at h
              simp only [List.cons_append, List.nil_append, List.cons.injEq] at h
              exact ⟨by omega, h.2.2.2.2⟩

/-- The UTF-8 byte stream of a character list determines the list. -/
theorem concatMap_utf8_inj : ∀ (l1 l2 : List Char),
    concatMap (fun c => utf8Bytes c.toNat) l1 = concatMap (fun c => utf8Bytes c.toNat) l2 →
    l1 = l2
  | [], [], _ => rfl
  | [], c2 :: t2, h => by
    exfalso
    have h2 : utf8Bytes c2.toNat ++ concatMap (fun c => utf8Bytes c.toNat) t2 = [] := h.symm
    rcases List.append_eq_nil.mp h2 with ⟨hnil, -⟩
    exact utf8Bytes_ne_nil c2.toNat hnil
  | c1 :: t1, [], h => by
    exfalso
    have h2 : utf8Bytes c1.toNat ++ concatMap (fun c => utf8Bytes c.toNat) t1 = [] := h
    rcases List.append_eq_nil.mp h2 with ⟨hnil, -⟩
    exact utf8Bytes_ne_nil c1.toNat hnil
  | c1 :: t1, c2 :: t2, h => by
    obtain ⟨hn, hr⟩ := utf8Bytes_append_inj (char_toNat_lt c1) (char_toNat_lt c2) h
    have hc : c1 = c2 := by
      have h3 := congrArg Char.ofNat hn
      rwa [Char.ofNat_toNat, Char.ofNat_toNat] at h3
    rw [hc, concatMap_utf8_inj t1 t2 hr]

/-- The byte string of a Lean string determines it: two strings with the
same UTF-8 bytes are equal. -/
theorem strBytes_inj (s t : String) (h : strBytes s = strBytes t) : s = t := by
  cases s with
  | mk d1 =>
    cases t with
    | mk d2 =>
      have h2 : d1 = d2 := concatMap_utf8_inj d1 d2 h
      rw [h2]

/-- UTF-8 encoding yields bytes. -/
theorem utf8Bytes_lt_256 {n : Nat} (hn : n < 0x110000) : ∀ b ∈ utf8Bytes n, b < 256 := by
  intro b hb
  by_cases h1 : n < 0x80
  · rw [utf8Bytes_eq1 h1] at hb
    simp at hb
    omega
  · by_cases h2 : n < 0x800
    · rw [utf8Bytes_eq2 h1 h2] at hb
      simp at hb
      rcases hb with hb | hb <;> omega
    · by_cases h3 : n < 0x10000
      · rw [utf8Bytes_eq3 h1 h2 h3] at hb
        simp at hb
        rcases hb with hb | hb | hb <;> omega
      · rw [utf8Bytes_eq4 h1 h2 h3] at hb
        simp at hb
        rcases hb with hb | hb | hb | hb <;> omega

/-- The bytes of any string are bytes. -/
theorem strBytes_lt_256 (s : String) : ∀ b ∈ strBytes s, b < 256 := by
  show ∀ b ∈ concatMap (fun c => utf8Bytes c.toNat) s.data, b < 256
  induction s.data with
  | nil => simp [concatMap]
  | cons c rest ih =>
    intro b hb
    rcases List.mem_append.mp hb with hm | hm
    · exact utf8Bytes_lt_256 (char_toNat_lt c) b hm
    · exact ih b hm

/-- `Char.ofNat` on an ASCII byte has that byte as its code point. -/
theorem toNat_ofNat_of_lt {b : Nat} (h : b < 0xD800) : (Char.ofNat b).toNat = b := by
  unfold Char.ofNat
  rw [dif_pos (Or.inl h)]
  rfl

/-- The UTF-8 bytes of an ASCII-byte character list are the bytes themselves. -/
theorem strBytes_of_ascii (l : List Nat) (h : ∀ b ∈ l, b < 128) :
    concatMap (fun c => utf8Bytes c.toNat) (l.map Char.ofNat) = l := by
  induction l with
  | nil => rfl
  | cons b rest ih =>
    have hb : b < 128 := h b (List.mem_cons_self b rest)
    have hrest : ∀ x ∈ rest, x < 128 := fun x hx => h x (List.mem_cons_of_mem b hx)
    show utf8Bytes ((Char.ofNat b).toNat) ++ concatMap _ (rest.map Char.ofNat) = b :: rest
    rw [toNat_ofNat_of_lt (by omega)]
    rw [utf8Bytes_eq1 (by omega)]
    rw [ih hrest]
    rfl

/-- Escaping produces only ASCII bytes. -/
theorem concatMap_escape_ascii (bs : List Nat) (h : ∀ b ∈ bs, b < 256) :
    ∀ x ∈ concatMap escapeByte bs, x < 128 := by
  induction bs with
  | nil => simp [concatMap]
  | cons b rest ih =>
    intro x hx
    have hb : b < 256 := h b (List.mem_cons_self b rest)
    have hrest : ∀ y ∈ rest, y < 256 := fun y hy => h y (List.mem_cons_of_mem b hy)
    rcases List.mem_append.mp hx with hm | hm
    · exact escapeByte_ascii b hb x hm
    · exact ih hrest x hm

/-- The byte stream of the escaped string is the escaped byte stream. -/
theorem strBytes_pathEscape (s : String) :
    strBytes (pathEscape s) = concatMap escapeByte (strBytes s) := by
  show concatMap (fun c => utf8Bytes c.toNat)
      ((concatMap escapeByte (strBytes s)).map Char.ofNat) = _
  exact strBytes_of_ascii _ (concatMap_escape_ascii (strBytes s) (strBytes_lt_256 s))

/-- Percent-decoding inverts percent-encoding on every string: the decoded
bytes are exactly the original string's bytes. -/
theorem pathUnescape_pathEscape (s : String) :
    pathUnescape (pathEscape s) = some (strBytes s) := by
  unfold pathUnescape
  rw [strBytes_pathEscape]
  exact unescape_escape (strBytes s) (strBytes_lt_256 s)

/-- C8: the episode URL is the base URL with a single trailing slash
stripped, then `/`, the percent-encoded directory base name, `/`, and the
percent-encoded filename; percent-decoding each encoded segment recovers the
byte string of the original name, and (Go strings being byte strings) that
byte string determines the name exactly. -/
theorem C8_url_shape_and_roundtrip (fs : FS) (filePath baseURL baseDir : String)
    (pubDate : Int) (episodeNum : Nat) (ep : Episode)
    (h : processAudioFile fs filePath baseURL baseDir pubDate episodeNum = .ok ep) :
    ep.URL = trimSuffix baseURL "/" ++ "/" ++ pathEscape (filepathBase baseDir) ++ "/" ++
      pathEscape (filepathBase filePath) ∧
    pathUnescape (pathEscape (filepathBase baseDir)) = some (strBytes (filepathBase baseDir)) ∧
    pathUnescape (pathEscape (filepathBase filePath)) =
      some (strBytes (filepathBase filePath)) ∧
    (∀ s t : String, strBytes s = strBytes t → s = t) :=
  ⟨(processAudioFile_fields h).2.2.2, pathUnescape_pathEscape _, pathUnescape_pathEscape _,
    strBytes_inj⟩

/-- Witness for C8 at the demo file. -/
theorem C8_witness :
    demoEp.URL = trimSuffix "u/" "/" ++ "/" ++ pathEscape (filepathBase "bk") ++ "/" ++
      pathEscape (filepathBase "bk/a.mp3") ∧
    pathUnescape (pathEscape (filepathBase "bk")) = some (strBytes (filepathBase "bk")) := by
  have h := C8_url_shape_and_roundtrip demoFS "bk/a.mp3" "u/" "bk" 5 1 demoEp (by rfl)
  exact ⟨h.1, h.2.1⟩

end Bookast
